import Mathlib

/-!
Shallow embedding of the `lifecycle-manager` repository
(`src/lifecycle.ts`, `src/LifecycleComponent.ts`).

The supervisor (`Lifecycle` class) owns an ordered list of components, a
status field, and a background health-check loop.  Component operations
(`start`, `close`, `checkHealth`) are asynchronous and fallible; we model a
component by the outcomes its operations produce (`startOk`, `closeOk`, a
per-cycle health function) plus the presence flags of its optional
capabilities.  Supervisor operations are modelled as pure functions that
return the observable trace of events emitted and operations invoked,
together with the successor state.  The cooperative interleaving of the
health loop with `close()` is modelled separately as a small-step relation
(`Step`) near the end of the definitions section.
-/

/-- Supervisor status, from `statuses` in `lifecycle.ts` (lines 15-22). -/
inductive Status
| pending
| starting
| running
| closing
| closed
deriving DecidableEq, Repr

/-- Position of a status in the forward order `pending → starting → running
→ closing → closed`. -/
def statusIdx : Status → Nat
| .pending => 0
| .starting => 1
| .running => 2
| .closing => 3
| .closed => 4

/-- The display string of a status, as interpolated into the error message
of `close` (`lifecycle.ts` line 154). -/
def statusName : Status → String
| .pending => "pending"
| .starting => "starting"
| .running => "running"
| .closing => "closing"
| .closed => "closed"

/-- A supervised component, seen through the contract the supervisor uses
(`LifecycleComponent` in `lifecycle.ts`): a display name, fallible `start`
and `close` (modelled by whether the returned promise resolves), an
optional `checkHealth` capability (modelled as the boolean it resolves to
at each health-check cycle, `none` when the capability is absent), and the
presence flag of an optional `restart` capability (the spec's §4.1 optional
recovery operation; components may carry such a method even though the
class in `lifecycle.ts` does not declare it). -/
structure Component where
  name : String
  startOk : Bool
  closeOk : Bool
  checkHealth : Option (Nat → Bool)
  hasRestart : Bool

/-- Observable actions: events emitted through the supervisor's emitter,
and invocations of component operations (awaits of `start`, `close`,
`checkHealth`, `restart`), plus the health-loop interval delay. -/
inductive Act
| statusEv (s : Status)
| componentStarted (n : String)
| componentClosing (n : String)
| componentClosed (n : String)
| componentRestarting (n : String)
| componentRestarted (n : String)
| healthChecked
| delayEv (ms : Nat)
| callStart (n : String)
| callClose (n : String)
| callCheckHealth (n : String)
| callRestart (n : String)
deriving DecidableEq, Repr

/-- Supervisor state: status, ordered registration sequence, and the
configured health-check interval (`lifecycle.ts` lines 67-106). -/
structure Lifecycle where
  status : Status
  components : List Component
  healthCheckIntervalMs : Nat

/-- `new Lifecycle(opt)`: status `pending`, empty component list
(`lifecycle.ts` constructor, lines 100-106; default interval 600). -/
def newLifecycle (intervalMs : Nat) : Lifecycle :=
  { status := .pending, components := [], healthCheckIntervalMs := intervalMs }

/-- `register(component)` (`lifecycle.ts` lines 119-124): throws unless the
status is `pending`, otherwise appends to the component list.  The returned
`Lifecycle` is the state after the call (unchanged when the call throws,
since the method mutates nothing before throwing). -/
def Lifecycle.register (lc : Lifecycle) (c : Component) :
    Except String Unit × Lifecycle :=
  if lc.status ≠ .pending then
    (.error "Cannot register components after lifecycle started", lc)
  else
    (.ok (), { lc with components := lc.components ++ [c] })

/-- `#startComponent` (`lifecycle.ts` lines 168-171): await the component's
`start()`, then emit `componentStarted` with its name.  When `start()`
rejects, the event is not emitted and the failure propagates. -/
def startComponent (c : Component) : List Act × Bool :=
  if c.startOk then
    ([.callStart c.name, .componentStarted c.name], true)
  else
    ([.callStart c.name], false)

/-- The startup loop body of `start` (`lifecycle.ts` lines 132-134):
components are started strictly sequentially in registration order; a
rejection halts the sequence immediately. -/
def startComponents : List Component → List Act × Bool
| [] => ([], true)
| c :: rest =>
  let (t, ok) := startComponent c
  if ok then
    let (t2, ok2) := startComponents rest
    (t ++ t2, ok2)
  else
    (t, false)

/-- `start()` (`lifecycle.ts` lines 130-144): set status `starting` (emitting
the status event), start each component in order, then set status `running`.
On a component failure the error propagates and the status stays `starting`.
The health loop spawned between the two transitions is asynchronous and is
modelled by the `Step` relation below; it emits no status events. -/
def Lifecycle.start (lc : Lifecycle) : List Act × Lifecycle × Bool :=
  let (t, ok) := startComponents lc.components
  if ok then
    (Act.statusEv .starting :: t ++ [Act.statusEv .running],
     { lc with status := .running }, true)
  else
    (Act.statusEv .starting :: t, { lc with status := .starting }, false)

/-- `#closeComponent` (`lifecycle.ts` lines 172-176): emit
`componentClosing`, await the component's `close()`, emit
`componentClosed`.  When `close()` rejects, `componentClosed` is not
emitted and the failure propagates. -/
def closeComponent (c : Component) : List Act × Bool :=
  if c.closeOk then
    ([.componentClosing c.name, .callClose c.name, .componentClosed c.name],
     true)
  else
    ([.componentClosing c.name, .callClose c.name], false)

/-- The shutdown loop of `close` (`lifecycle.ts` line 163) applied to an
already-reversed list: components close strictly sequentially; a rejection
halts the remaining sequence. -/
def closeComponents : List Component → List Act × Bool
| [] => ([], true)
| c :: rest =>
  let (t, ok) := closeComponent c
  if ok then
    let (t2, ok2) := closeComponents rest
    (t ++ t2, ok2)
  else
    (t, false)

/-- Result of a call to `close()`: `coalesced` is the early return of a
promise that resolves only once the `closed` event fires (no new shutdown
sequence, no actions); `illegal` is the thrown error; `run t ok` is an
executed shutdown sequence with its trace. -/
inductive CloseOutcome
| coalesced
| illegal (msg : String)
| run (t : List Act) (ok : Bool)

/-- `close()` (`lifecycle.ts` lines 149-167).  If status is `closing`,
return a pending promise hooked on the `closed` event.  If status is not
`running`, throw an error naming the current status.  Otherwise set status
`closing`, await the health-loop completion signal (modelled by the `Step`
relation), close the components in reverse registration order, and set
status `closed`.  On a component `close()` rejection the status stays
`closing` and the remaining components are untouched. -/
def Lifecycle.close (lc : Lifecycle) : CloseOutcome × Lifecycle :=
  if lc.status = .closing then
    (.coalesced, lc)
  else if lc.status ≠ .running then
    (.illegal ("Tried to close lifecycle with status " ++ statusName lc.status),
     lc)
  else
    let (t, ok) := closeComponents lc.components.reverse
    if ok then
      (.run (Act.statusEv .closing :: t ++ [Act.statusEv .closed]) true,
       { lc with status := .closed })
    else
      (.run (Act.statusEv .closing :: t) false, { lc with status := .closing })

/-- `#restartComponent` (`lifecycle.ts` lines 177-181): emit
`componentRestarting`, then await `(component.start)()` — the source
invokes `start` unconditionally, never a `restart` method — then emit
`componentRestarted`.  When the awaited call rejects, `componentRestarted`
is not emitted and the rejection propagates into the health loop. -/
def restartComponent (c : Component) : List Act × Bool :=
  if c.startOk then
    ([.componentRestarting c.name, .callStart c.name,
      .componentRestarted c.name], true)
  else
    ([.componentRestarting c.name, .callStart c.name], false)

/-- One component's slice of a health-check pass (`lifecycle.ts` line 184):
`await component.checkHealth?.() ?? true` — when the capability is absent
no call is made and the component counts as healthy; when the check
resolves `false` the component is restarted. `k` is the cycle number. -/
def checkComponent (c : Component) (k : Nat) : List Act × Bool :=
  match c.checkHealth with
  | none => ([], true)
  | some f =>
    if f k then
      ([.callCheckHealth c.name], true)
    else
      let (t, ok) := restartComponent c
      (.callCheckHealth c.name :: t, ok)

/-- `#checkComponentHealth` (`lifecycle.ts` lines 182-187): check every
component strictly sequentially in registration order, then emit a single
`healthChecked` event.  A rejection from a recovery call halts the pass
(the `healthChecked` event is then never emitted). -/
def checkComponentHealth : List Component → Nat → List Act × Bool
| [], _ => ([.healthChecked], true)
| c :: rest, k =>
  let (t, ok) := checkComponent c k
  if ok then
    let (t2, ok2) := checkComponentHealth rest k
    (t ++ t2, ok2)
  else
    (t, false)

/-- One iteration of the health loop body (`lifecycle.ts` lines 137-140):
await the interval delay, then run the full check pass. -/
def healthCycle (lc : Lifecycle) (k : Nat) : List Act × Bool :=
  let (t, ok) := checkComponentHealth lc.components k
  (Act.delayEv lc.healthCheckIntervalMs :: t, ok)

/-- Whether a component's health check resolves `false` at cycle `k`
(absent capability counting as healthy). -/
def unhealthyAt (c : Component) (k : Nat) : Bool :=
  match c.checkHealth with
  | none => false
  | some f => !(f k)

/-- A component that supervises children, from `LifecycleComponent.ts`:
the class holds a private ordered child list, initially empty. -/
structure LifecycleComponent where
  children : List Component

/-- A fresh `LifecycleComponent`: `#components: LifecycleComponent[] = []`
(`LifecycleComponent.ts` line 5). -/
def newLifecycleComponent : LifecycleComponent :=
  { children := [] }

/-- `registerChildComponent(component)` (`LifecycleComponent.ts` lines
17-19): unconditionally push onto the child list — no status guard, the
operation is total. -/
def LifecycleComponent.registerChildComponent
    (p : LifecycleComponent) (c : Component) : LifecycleComponent :=
  { p with children := p.children ++ [c] }

/-- The loop of `startChildComponents` applied to a child list: await each
child's `start()` sequentially; a rejection halts the sequence. -/
def invokeStarts : List Component → List Act × Bool
| [] => ([], true)
| c :: rest =>
  if c.startOk then
    let (t, ok) := invokeStarts rest
    (.callStart c.name :: t, ok)
  else
    ([.callStart c.name], false)

/-- The loop of `closeChildComponents` applied to an already-reversed child
list: await each child's `close()` sequentially; a rejection halts. -/
def invokeCloses : List Component → List Act × Bool
| [] => ([], true)
| c :: rest =>
  if c.closeOk then
    let (t, ok) := invokeCloses rest
    (.callClose c.name :: t, ok)
  else
    ([.callClose c.name], false)

/-- `startChildComponents()` (`LifecycleComponent.ts` lines 23-25):
`for (const component of this.#components) await component.start()`. -/
def LifecycleComponent.startChildComponents
    (p : LifecycleComponent) : List Act × Bool :=
  invokeStarts p.children

/-- `closeChildComponents()` (`LifecycleComponent.ts` lines 29-31):
`for (const component of this.#components.toReversed()) await
component.close()`. -/
def LifecycleComponent.closeChildComponents
    (p : LifecycleComponent) : List Act × Bool :=
  invokeCloses p.children.reverse

/-- Operations on a `LifecycleComponent`'s child list available to an
implementer. -/
inductive ParentOp
| registerChild (c : Component)
| startChildren
| closeChildren

/-- Effect of a parent operation on the parent's state: starting or closing
children never modifies the child list. -/
def applyParentOp (p : LifecycleComponent) : ParentOp → LifecycleComponent
| .registerChild c => p.registerChildComponent c
| .startChildren => p
| .closeChildren => p

/-- Run a sequence of parent operations from a given parent state. -/
def runParentOps (p : LifecycleComponent) : List ParentOp → LifecycleComponent
| [] => p
| op :: ops => runParentOps (applyParentOp p op) ops

/-- Public supervisor operations, for reasoning about reachable status
histories. -/
inductive Op
| register (c : Component)
| start
| close

/-- Apply one public operation, returning the successor state and the trace
of emitted events and invocations.  Throwing calls (`register` outside
`pending`, `close` outside `running`/`closing`) change nothing and emit
nothing; a coalesced `close` emits nothing. -/
def applyOp (lc : Lifecycle) : Op → Lifecycle × List Act
| .register c => ((lc.register c).2, [])
| .start =>
  let r := lc.start
  (r.2.1, r.1)
| .close =>
  match lc.close with
  | (.run t _, lc') => (lc', t)
  | (_, lc') => (lc', [])

/-- Run a sequence of public operations, concatenating the traces. -/
def runOps (lc : Lifecycle) : List Op → Lifecycle × List Act
| [] => (lc, [])
| op :: ops =>
  let (lc', t) := applyOp lc op
  let (lc'', t2) := runOps lc' ops
  (lc'', t ++ t2)

/-- The status events of a trace, in order. -/
def emittedStatuses (t : List Act) : List Status :=
  t.filterMap fun a =>
    match a with
    | .statusEv s => some s
    | _ => none

/-- Claim C5 as stated: along any sequence of public operations from a
fresh supervisor, the succession of status values (the initial `pending`
followed by every emitted status event) moves strictly forward in the order
`pending, starting, running, closing, closed`. -/
def ForwardMoving (ops : List Op) : Prop :=
  List.Chain' (fun a b => statusIdx a < statusIdx b)
    (Status.pending :: emittedStatuses (runOps (newLifecycle 600) ops).2)

/-- Number of `start` operations in an operation sequence. -/
def countStarts : List Op → Nat
| [] => 0
| .start :: ops => countStarts ops + 1
| _ :: ops => countStarts ops

/-- A concrete component with no optional capabilities whose operations all
resolve. -/
def cA : Component :=
  { name := "a", startOk := true, closeOk := true, checkHealth := none,
    hasRestart := false }

/-- A second concrete component with no optional capabilities. -/
def cB : Component :=
  { name := "b", startOk := true, closeOk := true, checkHealth := none,
    hasRestart := false }

/-- A third concrete component, with a health check that always reports
healthy. -/
def cC : Component :=
  { name := "c", startOk := true, closeOk := true,
    checkHealth := some fun _ => true, hasRestart := false }

/-- A concrete component implementing both `checkHealth` (always reporting
unhealthy) and a `restart` capability. -/
def cRestartable : Component :=
  { name := "r", startOk := true, closeOk := true,
    checkHealth := some fun _ => false, hasRestart := true }

/-- A concrete component whose `start()` rejects. -/
def cBadStart : Component :=
  { name := "x", startOk := false, closeOk := true, checkHealth := none,
    hasRestart := false }

/-- Claim C1: the source's recovery path (`#restartComponent`,
`lifecycle.ts` lines 177-181) does emit the
`componentRestarting`/`componentRestarted` pair, but it invokes the
component's `start()` unconditionally — at the concrete failing input, a
component that has a `restart` capability and reports unhealthy, the
health pass contains a `start` invocation and no `restart` invocation,
contradicting the claim's "awaits the component's restart() if that
capability is present ... never has start invoked again for recovery"
(and the class documentation at `lifecycle.ts` line 27). -/
theorem restart_dispatch_invokes_start :
    cRestartable.hasRestart = true ∧
    checkComponent cRestartable 0 =
      ([.callCheckHealth "r", .componentRestarting "r", .callStart "r",
        .componentRestarted "r"], true) ∧
    Act.callStart "r" ∈ (checkComponent cRestartable 0).1 ∧
    Act.callRestart "r" ∉ (checkComponent cRestartable 0).1 := by
  refine ⟨rfl, rfl, ?_, ?_⟩ <;> decide

/-- Claim C7: `register` appends the component to the end of the ordered
registration sequence when the supervisor status is `pending`; for every
other status it fails with an illegal-state error and leaves the
supervisor — in particular the registration sequence — unchanged. -/
theorem register_guard (lc : Lifecycle) (c : Component) :
    (lc.status = .pending →
      lc.register c =
        (.ok (), { lc with components := lc.components ++ [c] })) ∧
    (lc.status ≠ .pending →
      lc.register c =
        (.error "Cannot register components after lifecycle started", lc)) := by
  constructor <;> intro h <;> simp [Lifecycle.register, h]

/-- Witness for `register_guard`: a fresh supervisor accepts a component;
a running supervisor rejects it and is left unchanged. -/
theorem register_guard_wit :
    (newLifecycle 600).register cA =
      (.ok (), { newLifecycle 600 with components := [cA] }) ∧
    ({ status := Status.running, components := [], healthCheckIntervalMs := 600 } : Lifecycle).register cA =
      (.error "Cannot register components after lifecycle started",
       { status := Status.running, components := [], healthCheckIntervalMs := 600 }) :=
  ⟨(register_guard (newLifecycle 600) cA).1 rfl,
   (register_guard _ cA).2 (by decide)⟩

/-- Claim C4: `close()` while the status is already `closing` returns the
pending coalesced result (a promise that resolves only when the `closed`
event is observed) and changes nothing — in particular it starts no second
shutdown sequence, so no component close event is emitted again; `close()`
in any status other than `running` or `closing` fails with an
illegal-state error naming the current status and leaves the supervisor,
hence its status and component sequence, unchanged. -/
theorem close_guard (lc : Lifecycle) :
    (lc.status = .closing → lc.close = (.coalesced, lc)) ∧
    (lc.status ≠ .running → lc.status ≠ .closing →
      lc.close =
        (.illegal ("Tried to close lifecycle with status " ++
            statusName lc.status), lc)) := by
  constructor
  · intro h
    simp [Lifecycle.close, h]
  · intro h1 h2
    simp [Lifecycle.close, h1, h2]

/-- Witness for `close_guard`: a supervisor mid-shutdown coalesces a second
close call; a pending supervisor rejects close with an error naming its
status. -/
theorem close_guard_wit :
    ({ status := Status.closing, components := [cA], healthCheckIntervalMs := 1 } : Lifecycle).close
      = (.coalesced,
         { status := Status.closing, components := [cA], healthCheckIntervalMs := 1 }) ∧
    ({ status := Status.pending, components := [cA], healthCheckIntervalMs := 1 } : Lifecycle).close
      = (.illegal ("Tried to close lifecycle with status " ++
          statusName Status.pending),
         { status := Status.pending, components := [cA], healthCheckIntervalMs := 1 }) :=
  ⟨(close_guard _).1 rfl, (close_guard _).2 (by decide) (by decide)⟩

/-- Helper: when every component in a child list has a resolving `start()`,
the start loop invokes each one in list order and reports success. -/
theorem invokeStarts_all_ok (l : List Component)
    (h : ∀ c ∈ l, c.startOk = true) :
    invokeStarts l = (l.map fun c => Act.callStart c.name, true) := by
  induction l with
  | nil => rfl
  | cons c rest ih =>
    have hc := h c (List.mem_cons_self ..)
    have hr := ih fun x hx => h x (List.mem_cons_of_mem _ hx)
    simp [invokeStarts, hc, hr]

/-- Helper: when every component in a child list has a resolving `close()`,
the close loop invokes each one in list order and reports success. -/
theorem invokeCloses_all_ok (l : List Component)
    (h : ∀ c ∈ l, c.closeOk = true) :
    invokeCloses l = (l.map fun c => Act.callClose c.name, true) := by
  induction l with
  | nil => rfl
  | cons c rest ih =>
    have hc := h c (List.mem_cons_self ..)
    have hr := ih fun x hx => h x (List.mem_cons_of_mem _ hx)
    simp [invokeCloses, hc, hr]

/-- Claim C9: for every parent component and every registered child
sequence (on the success path, where each awaited child operation
resolves), `startChildComponents` awaits each child's `start()`
sequentially in exactly the registration order, and
`closeChildComponents` awaits each child's `close()` sequentially in
exactly the reverse of the registration order. -/
theorem childComponents_order (p : LifecycleComponent)
    (hs : ∀ c ∈ p.children, c.startOk = true)
    (hc : ∀ c ∈ p.children, c.closeOk = true) :
    p.startChildComponents = (p.children.map fun c => Act.callStart c.name, true) ∧
    p.closeChildComponents =
      (p.children.reverse.map fun c => Act.callClose c.name, true) := by
  constructor
  · exact invokeStarts_all_ok _ hs
  · exact invokeCloses_all_ok _ fun c hx => hc c (List.mem_reverse.mp hx)

/-- A concrete parent component with two registered children. -/
def pWit : LifecycleComponent :=
  (newLifecycleComponent.registerChildComponent cA).registerChildComponent cB

/-- Witness for `childComponents_order` at a concrete parent with children
`[cA, cB]`: starts run in registration order, closes in reverse. -/
theorem childComponents_order_wit :
    pWit.startChildComponents = ([.callStart "a", .callStart "b"], true) ∧
    pWit.closeChildComponents = ([.callClose "b", .callClose "a"], true) := by
  have h := childComponents_order pWit (by decide) (by decide)
  exact h

/-- Claim C10: unlike the supervisor's `register`, a component's
`registerChildComponent` is not guarded by any state: after every prior
sequence of operations on the parent (including runs of
`startChildComponents` and `closeChildComponents`) it never fails and
always appends the child to the end of the child list. -/
theorem registerChildComponent_unguarded (ops : List ParentOp) (c : Component) :
    ((runParentOps newLifecycleComponent ops).registerChildComponent c).children
      = (runParentOps newLifecycleComponent ops).children ++ [c] := rfl

/-- Helper: when every component's `start()` resolves, the startup loop
produces exactly an invocation/`componentStarted` pair per component, in
list order, and succeeds. -/
theorem startComponents_all_ok (l : List Component)
    (h : ∀ c ∈ l, c.startOk = true) :
    startComponents l =
      ((l.map fun c => [Act.callStart c.name, Act.componentStarted c.name]).flatten,
       true) := by
  induction l with
  | nil => rfl
  | cons c rest ih =>
    have hc := h c (List.mem_cons_self ..)
    have hr := ih fun x hx => h x (List.mem_cons_of_mem _ hx)
    simp [startComponents, startComponent, hc, hr]

/-- Helper: when every component's `close()` resolves, the shutdown loop
produces exactly a `componentClosing`/invocation/`componentClosed` triple
per component, in list order, and succeeds. -/
theorem closeComponents_all_ok (l : List Component)
    (h : ∀ c ∈ l, c.closeOk = true) :
    closeComponents l =
      ((l.map fun c => [Act.componentClosing c.name, Act.callClose c.name,
          Act.componentClosed c.name]).flatten, true) := by
  induction l with
  | nil => rfl
  | cons c rest ih =>
    have hc := h c (List.mem_cons_self ..)
    have hr := ih fun x hx => h x (List.mem_cons_of_mem _ hx)
    simp [closeComponents, closeComponent, hc, hr]

/-- Claim C2: for every registration sequence (stated on the success path:
every component operation resolves), a successful `start()` emits
`componentStarted` events in exactly the registration order, each directly
after that component's `start()` invocation, and a successful `close()` of
the resulting supervisor emits the `componentClosing`/`componentClosed`
pairs in exactly the reverse of the registration order, with each
`componentClosing` directly before and each `componentClosed` directly
after the awaited component `close()`. -/
theorem start_close_event_order (cs : List Component) (_hne : cs ≠ [])
    (hs : ∀ c ∈ cs, c.startOk = true) (hc : ∀ c ∈ cs, c.closeOk = true) :
    Lifecycle.start
        { status := .pending, components := cs, healthCheckIntervalMs := 600 } =
      (Act.statusEv .starting ::
         (cs.map fun c => [Act.callStart c.name, Act.componentStarted c.name]).flatten
         ++ [Act.statusEv .running],
       { status := .running, components := cs, healthCheckIntervalMs := 600 },
       true) ∧
    Lifecycle.close
        { status := .running, components := cs, healthCheckIntervalMs := 600 } =
      (CloseOutcome.run
         (Act.statusEv .closing ::
           (cs.reverse.map fun c => [Act.componentClosing c.name,
              Act.callClose c.name, Act.componentClosed c.name]).flatten
           ++ [Act.statusEv .closed]) true,
       { status := .closed, components := cs, healthCheckIntervalMs := 600 }) := by
  have h1 := startComponents_all_ok cs hs
  have h2 := closeComponents_all_ok cs.reverse
    fun c hx => hc c (List.mem_reverse.mp hx)
  constructor
  · simp [Lifecycle.start, h1]
  · simp [Lifecycle.close, h2]

/-- Witness for `start_close_event_order` at the concrete registration
sequence `[cA, cB, cC]`: starts in order `a, b, c`, close pairs in order
`c, b, a`. -/
theorem start_close_event_order_wit :
    Lifecycle.start
        { status := .pending, components := [cA, cB, cC],
          healthCheckIntervalMs := 600 } =
      ([.statusEv .starting, .callStart "a", .componentStarted "a",
        .callStart "b", .componentStarted "b", .callStart "c",
        .componentStarted "c", .statusEv .running],
       { status := .running, components := [cA, cB, cC],
         healthCheckIntervalMs := 600 }, true) ∧
    Lifecycle.close
        { status := .running, components := [cA, cB, cC],
          healthCheckIntervalMs := 600 } =
      (CloseOutcome.run
         [.statusEv .closing, .componentClosing "c", .callClose "c",
          .componentClosed "c", .componentClosing "b", .callClose "b",
          .componentClosed "b", .componentClosing "a", .callClose "a",
          .componentClosed "a", .statusEv .closed] true,
       { status := .closed, components := [cA, cB, cC],
         healthCheckIntervalMs := 600 }) := by
  have h := start_close_event_order [cA, cB, cC] (by simp) (by decide) (by decide)
  exact h

/-- Helper: a rejecting `start()` in the middle of the registration
sequence halts the startup loop right after the failing invocation. -/
theorem startComponents_fail (l1 : List Component) (cbad : Component)
    (l2 : List Component)
    (h1 : ∀ c ∈ l1, c.startOk = true) (hb : cbad.startOk = false) :
    startComponents (l1 ++ cbad :: l2) =
      ((l1.map fun c => [Act.callStart c.name, Act.componentStarted c.name]).flatten
        ++ [Act.callStart cbad.name], false) := by
  induction l1 with
  | nil => simp [startComponents, startComponent, hb]
  | cons c rest ih =>
    have hc := h1 c (List.mem_cons_self ..)
    have hr := ih fun x hx => h1 x (List.mem_cons_of_mem _ hx)
    simp [startComponents, startComponent, hc, hr]

/-- Helper: every action in the successful prefix of a startup trace is a
`start` invocation or a `componentStarted` event of one of its
components. -/
theorem mem_startPrefix (l : List Component) (a : Act)
    (ha : a ∈ (l.map fun c => [Act.callStart c.name, Act.componentStarted c.name]).flatten) :
    ∃ c ∈ l, a = Act.callStart c.name ∨ a = Act.componentStarted c.name := by
  simp only [List.mem_flatten, List.mem_map] at ha
  obtain ⟨tl, ⟨c, hcl, rfl⟩, hal⟩ := ha
  refine ⟨c, hcl, ?_⟩
  simpa using hal

/-- Claim C8: if the `i`-th registered component's `start()` rejects during
the supervisor's `start()`, the failure propagates out immediately: the
trace ends with the failing invocation, so no component after the `i`-th
has `start()` invoked, no `close()` is ever invoked and no
`componentClosing` is emitted (no rollback), no `componentStarted` event
is emitted for the failing component (given its name is not also the name
of an earlier component), and the supervisor status remains `starting`. -/
theorem start_failure_halts (cs1 : List Component) (cbad : Component)
    (cs2 : List Component)
    (h1 : ∀ c ∈ cs1, c.startOk = true) (hb : cbad.startOk = false) :
    Lifecycle.start
        { status := .pending, components := cs1 ++ cbad :: cs2,
          healthCheckIntervalMs := 600 } =
      (Act.statusEv .starting ::
         ((cs1.map fun c => [Act.callStart c.name, Act.componentStarted c.name]).flatten
           ++ [Act.callStart cbad.name]),
       { status := .starting, components := cs1 ++ cbad :: cs2,
         healthCheckIntervalMs := 600 }, false) ∧
    (∀ n, Act.callClose n ∉
      Act.statusEv .starting ::
        ((cs1.map fun c => [Act.callStart c.name, Act.componentStarted c.name]).flatten
          ++ [Act.callStart cbad.name])) ∧
    (∀ n, Act.componentClosing n ∉
      Act.statusEv .starting ::
        ((cs1.map fun c => [Act.callStart c.name, Act.componentStarted c.name]).flatten
          ++ [Act.callStart cbad.name])) ∧
    (∀ c ∈ cs2, ∀ (a : Act), a = Act.callStart c.name →
      a ∈ Act.statusEv .starting ::
        ((cs1.map fun c => [Act.callStart c.name, Act.componentStarted c.name]).flatten
          ++ [Act.callStart cbad.name]) →
      c.name ∈ cs1.map Component.name ∨ c.name = cbad.name) ∧
    (cbad.name ∉ cs1.map Component.name →
      Act.componentStarted cbad.name ∉
        Act.statusEv .starting ::
          ((cs1.map fun c => [Act.callStart c.name, Act.componentStarted c.name]).flatten
            ++ [Act.callStart cbad.name])) := by
  have hsc := startComponents_fail cs1 cbad cs2 h1 hb
  have hdec : ∀ a : Act,
      a ∈ Act.statusEv .starting ::
        ((cs1.map fun c => [Act.callStart c.name, Act.componentStarted c.name]).flatten
          ++ [Act.callStart cbad.name]) →
      a = Act.statusEv .starting ∨
      (∃ c ∈ cs1, a = Act.callStart c.name ∨ a = Act.componentStarted c.name) ∨
      a = Act.callStart cbad.name := by
    intro a ha
    rcases List.mem_cons.mp ha with h | ha
    · exact .inl h
    rcases List.mem_append.mp ha with ha | ha
    · exact .inr (.inl (mem_startPrefix _ _ ha))
    · exact .inr (.inr (by simpa using ha))
  refine ⟨by simp [Lifecycle.start, hsc], ?_, ?_, ?_, ?_⟩
  · intro n hmem
    rcases hdec _ hmem with h | ⟨c, _, h | h⟩ | h <;> simp at h
  · intro n hmem
    rcases hdec _ hmem with h | ⟨c, _, h | h⟩ | h <;> simp at h
  · intro c hc2 a ha hmem
    subst ha
    rcases hdec _ hmem with h | ⟨c', hc', h | h⟩ | h
    · simp at h
    · left
      simp only [Act.callStart.injEq] at h
      exact h ▸ List.mem_map.mpr ⟨c', hc', rfl⟩
    · simp at h
    · right
      simpa using h
  · intro hnot hmem
    rcases hdec _ hmem with h | ⟨c', hc', h | h⟩ | h
    · simp at h
    · simp at h
    · simp only [Act.componentStarted.injEq] at h
      exact hnot (h ▸ List.mem_map.mpr ⟨c', hc', rfl⟩)
    · simp at h

/-- Witness for `start_failure_halts`: registration sequence
`[cA, cBadStart, cB]` — `a` starts, the failing `x` is invoked but yields
no `componentStarted`, `b` is never invoked, nothing closes, and the
status stays `starting`. -/
theorem start_failure_halts_wit :
    Lifecycle.start
        { status := .pending, components := [cA, cBadStart, cB],
          healthCheckIntervalMs := 600 } =
      ([.statusEv .starting, .callStart "a", .componentStarted "a",
        .callStart "x"],
       { status := .starting, components := [cA, cBadStart, cB],
         healthCheckIntervalMs := 600 }, false) :=
  (start_failure_halts [cA] cBadStart [cB] (by decide) (by decide)).1

/-- Helper: a component's slice of a health pass succeeds whenever its
recovery `start()` resolves (or it needs no recovery). -/
theorem checkComponent_ok (c : Component) (k : Nat)
    (h : unhealthyAt c k = true → c.startOk = true) :
    (checkComponent c k).2 = true := by
  cases hch : c.checkHealth with
  | none => simp [checkComponent, hch]
  | some f =>
    by_cases hf : f k
    · simp [checkComponent, hch, hf]
    · have hok : c.startOk = true := h (by simp [unhealthyAt, hch, hf])
      simp [checkComponent, hch, hf, restartComponent, hok]

/-- Helper: when every unhealthy component's recovery call resolves, the
full health pass concatenates each component's slice in registration order
and ends with exactly one `healthChecked` event. -/
theorem checkComponentHealth_all_ok (l : List Component) (k : Nat)
    (h : ∀ c ∈ l, unhealthyAt c k = true → c.startOk = true) :
    checkComponentHealth l k =
      ((l.map fun c => (checkComponent c k).1).flatten
        ++ [Act.healthChecked], true) := by
  induction l with
  | nil => rfl
  | cons c rest ih =>
    have hok := checkComponent_ok c k (h c (List.mem_cons_self ..))
    have hr := ih fun x hx => h x (List.mem_cons_of_mem _ hx)
    rcases hck : checkComponent c k with ⟨t, ok⟩
    rw [hck] at hok
    simp only at hok
    subst hok
    simp [checkComponentHealth, hck, hr]

/-- Claim C6: in every health-check cycle (stated on the success path,
where every recovery call resolves), the supervisor first waits
`healthCheckIntervalMs`, then checks every registered component strictly
sequentially in registration order, and after the full pass emits exactly
one `healthChecked` event whether or not restarts occurred; a component
without the `checkHealth` capability contributes no actions at all (it is
treated as healthy and never restarted), a healthy component contributes
exactly its `checkHealth` invocation, and an unhealthy component
contributes exactly one `componentRestarting`/`componentRestarted` pair
around its recovery invocation. -/
theorem health_cycle_spec (lc : Lifecycle) (k : Nat)
    (h : ∀ c ∈ lc.components, unhealthyAt c k = true → c.startOk = true) :
    healthCycle lc k =
      (Act.delayEv lc.healthCheckIntervalMs ::
        ((lc.components.map fun c => (checkComponent c k).1).flatten
          ++ [Act.healthChecked]), true) ∧
    (∀ c : Component, c.checkHealth = none → (checkComponent c k).1 = []) ∧
    (∀ (c : Component) (f : Nat → Bool), c.checkHealth = some f → f k = true →
      (checkComponent c k).1 = [Act.callCheckHealth c.name]) ∧
    (∀ (c : Component) (f : Nat → Bool), c.checkHealth = some f → f k = false →
      c.startOk = true →
      (checkComponent c k).1 =
        [Act.callCheckHealth c.name, Act.componentRestarting c.name,
         Act.callStart c.name, Act.componentRestarted c.name]) := by
  refine ⟨?_, ?_, ?_, ?_⟩
  · simp [healthCycle, checkComponentHealth_all_ok lc.components k h]
  · intro c hch
    simp [checkComponent, hch]
  · intro c f hch hf
    simp [checkComponent, hch, hf]
  · intro c f hch hf hok
    simp [checkComponent, hch, hf, restartComponent, hok]

/-- Witness for `health_cycle_spec` at the concrete supervisor with
components `[cC, cA, cRestartable]` (healthy check, absent capability,
failing check) at cycle 0: the delay, then `c`'s check, nothing for `a`,
the check and restart pair for `r`, then a single `healthChecked`. -/
theorem health_cycle_spec_wit :
    healthCycle
      { status := Status.running, components := [cC, cA, cRestartable],
        healthCheckIntervalMs := 5 } 0 =
      ([.delayEv 5, .callCheckHealth "c", .callCheckHealth "r",
        .componentRestarting "r", .callStart "r", .componentRestarted "r",
        .healthChecked], true) := by
  have h := (health_cycle_spec
    { status := Status.running, components := [cC, cA, cRestartable],
      healthCheckIntervalMs := 5 } 0 (by decide)).1
  exact h

/-- Helper: extracting status events distributes over trace
concatenation. -/
theorem emittedStatuses_append (t1 t2 : List Act) :
    emittedStatuses (t1 ++ t2) = emittedStatuses t1 ++ emittedStatuses t2 := by
  simp [emittedStatuses, List.filterMap_append]

/-- Helper: a status event at the head of a trace heads the extracted
status list. -/
theorem emittedStatuses_statusEv_cons (s : Status) (t : List Act) :
    emittedStatuses (Act.statusEv s :: t) = s :: emittedStatuses t := by
  simp [emittedStatuses]

/-- Helper: an empty trace has no status events. -/
theorem emittedStatuses_nil : emittedStatuses [] = [] := rfl

/-- Helper: the startup loop emits no status events (only invocations and
`componentStarted` events). -/
theorem emittedStatuses_startComponents (l : List Component) :
    emittedStatuses (startComponents l).1 = [] := by
  induction l with
  | nil => rfl
  | cons c rest ih =>
    rcases hr : startComponents rest with ⟨t2, ok2⟩
    rw [hr] at ih
    by_cases hc : c.startOk
    · simpa [startComponents, startComponent, hc, hr, emittedStatuses,
        List.filterMap_append] using ih
    · simp [startComponents, startComponent, hc, hr, emittedStatuses]

/-- Helper: the shutdown loop emits no status events (only invocations and
`componentClosing`/`componentClosed` events). -/
theorem emittedStatuses_closeComponents (l : List Component) :
    emittedStatuses (closeComponents l).1 = [] := by
  induction l with
  | nil => rfl
  | cons c rest ih =>
    rcases hr : closeComponents rest with ⟨t2, ok2⟩
    rw [hr] at ih
    by_cases hc : c.closeOk
    · simpa [closeComponents, closeComponent, hc, hr, emittedStatuses,
        List.filterMap_append] using ih
    · simp [closeComponents, closeComponent, hc, hr, emittedStatuses]

/-- A status history fragment: starting from status `s`, the emitted status
events `E` form a strictly forward-moving chain and the final status `s'`
is the last emitted status (or `s` when nothing was emitted). -/
def TraceOK (s : Status) (E : List Status) (s' : Status) : Prop :=
  List.Chain' (fun a b => statusIdx a < statusIdx b) (s :: E) ∧
  s' = (E.getLast?).getD s

/-- Helper: the last element of a nonempty cons list, as an option. -/
theorem getLast?_cons_getD (s : Status) (E : List Status) :
    (s :: E).getLast? = some ((E.getLast?).getD s) := by
  induction E generalizing s with
  | nil => rfl
  | cons e rest ih =>
    rw [List.getLast?_cons_cons, ih e]
    simp

/-- Helper: status history fragments compose. -/
theorem traceOK_append {s s' s'' : Status} {E1 E2 : List Status}
    (h1 : TraceOK s E1 s') (h2 : TraceOK s' E2 s'') :
    TraceOK s (E1 ++ E2) s'' := by
  obtain ⟨hc1, hl1⟩ := h1
  obtain ⟨hc2, hl2⟩ := h2
  constructor
  · rw [show s :: (E1 ++ E2) = (s :: E1) ++ E2 by rfl]
    rw [List.chain'_append]
    refine ⟨hc1, hc2.tail, ?_⟩
    intro x hx y hy
    rw [getLast?_cons_getD] at hx
    have hx' : x = s' := by
      rw [hl1]
      exact (Option.some.injEq ..).mp hx.symm
    subst hx'
    exact (List.chain'_cons'.mp hc2).1 y hy
  · rcases hE2 : E2.getLast? with _ | e2
    · have he : E2 = [] := List.getLast?_eq_none_iff.mp hE2
      subst he
      simpa using hl1 ▸ hl2
    · have hne : E2 ≠ [] := by
        intro hnil
        rw [hnil] at hE2
        cases hE2
      rw [List.getLast?_append_of_ne_nil _ hne, hE2]
      rw [hl2, hE2]
      rfl

/-- Helper: `register` never changes the supervisor status. -/
theorem register_status (lc : Lifecycle) (c : Component) :
    ((lc.register c).2).status = lc.status := by
  by_cases hp : lc.status = .pending <;> simp [Lifecycle.register, hp]

/-- Helper: a single public operation produces a forward-moving status
fragment, provided `start` is only invoked while the status is
`pending`. -/
theorem applyOp_traceOK (lc : Lifecycle) (op : Op)
    (h : op = Op.start → lc.status = .pending) :
    TraceOK lc.status (emittedStatuses (applyOp lc op).2)
      (applyOp lc op).1.status := by
  cases op with
  | register c =>
    refine ⟨?_, ?_⟩
    · simp [applyOp, emittedStatuses]
    · simp [applyOp, emittedStatuses, register_status]
  | start =>
    have hp := h rfl
    rcases hsc : startComponents lc.components with ⟨t, ok⟩
    have hts : emittedStatuses t = [] := by
      have hh := emittedStatuses_startComponents lc.components
      rw [hsc] at hh
      exact hh
    cases ok
    · have happ : applyOp lc Op.start =
          ({ lc with status := .starting }, Act.statusEv .starting :: t) := by
        simp [applyOp, Lifecycle.start, hsc]
      rw [happ]
      dsimp only
      rw [emittedStatuses_statusEv_cons, hts, hp]
      exact ⟨by simp [List.chain'_cons, List.chain'_singleton, statusIdx], rfl⟩
    · have happ : applyOp lc Op.start =
          ({ lc with status := .running },
           Act.statusEv .starting :: t ++ [Act.statusEv .running]) := by
        simp [applyOp, Lifecycle.start, hsc]
      rw [happ]
      dsimp only
      rw [emittedStatuses_append, emittedStatuses_statusEv_cons,
        emittedStatuses_statusEv_cons, emittedStatuses_nil, hts, hp]
      exact ⟨by simp [List.chain'_cons, List.chain'_singleton, statusIdx], rfl⟩
  | close =>
    by_cases h1 : lc.status = .closing
    · refine ⟨?_, ?_⟩ <;> simp [applyOp, Lifecycle.close, h1, emittedStatuses]
    by_cases h2 : lc.status = .running
    · rcases hcc : closeComponents lc.components.reverse with ⟨t, ok⟩
      have hts : emittedStatuses t = [] := by
        have hh := emittedStatuses_closeComponents lc.components.reverse
        rw [hcc] at hh
        exact hh
      cases ok
      · have happ : applyOp lc Op.close =
            ({ lc with status := .closing }, Act.statusEv .closing :: t) := by
          simp [applyOp, Lifecycle.close, h1, h2, hcc]
        rw [happ]
        dsimp only
        rw [emittedStatuses_statusEv_cons, hts, h2]
        exact ⟨by simp [List.chain'_cons, List.chain'_singleton, statusIdx], rfl⟩
      · have happ : applyOp lc Op.close =
            ({ lc with status := .closed },
             Act.statusEv .closing :: t ++ [Act.statusEv .closed]) := by
          simp [applyOp, Lifecycle.close, h1, h2, hcc]
        rw [happ]
        dsimp only
        rw [emittedStatuses_append, emittedStatuses_statusEv_cons,
          emittedStatuses_statusEv_cons, emittedStatuses_nil, hts, h2]
        exact ⟨by simp [List.chain'_cons, List.chain'_singleton, statusIdx], rfl⟩
    · refine ⟨?_, ?_⟩ <;> simp [applyOp, Lifecycle.close, h1, h2, emittedStatuses]

/-- Helper: along any operation sequence in which `start` is invoked at
most once and only from `pending`, the emitted status history is a
forward-moving fragment. -/
theorem runOps_traceOK (ops : List Op) (lc : Lifecycle)
    (h : countStarts ops = 0 ∨ (countStarts ops ≤ 1 ∧ lc.status = .pending)) :
    TraceOK lc.status (emittedStatuses (runOps lc ops).2)
      (runOps lc ops).1.status := by
  induction ops generalizing lc with
  | nil => exact ⟨List.chain'_singleton _, rfl⟩
  | cons op rest ih =>
    have hpre : op = Op.start → lc.status = .pending := by
      intro he
      rcases h with h0 | ⟨_, hp⟩
      · rw [he] at h0
        simp [countStarts] at h0
      · exact hp
    have hstep := applyOp_traceOK lc op hpre
    have hrest : countStarts rest = 0 ∨
        (countStarts rest ≤ 1 ∧ (applyOp lc op).1.status = .pending) := by
      cases op with
      | register c =>
        rcases h with h0 | ⟨hle, hp⟩
        · exact .inl (by simpa [countStarts] using h0)
        · refine .inr ⟨by simpa [countStarts] using hle, ?_⟩
          simpa [applyOp, register_status] using hp
      | start =>
        rcases h with h0 | ⟨hle, hp⟩
        · simp [countStarts] at h0
        · left
          simp [countStarts] at hle
          omega
      | close =>
        rcases h with h0 | ⟨hle, hp⟩
        · exact .inl (by simpa [countStarts] using h0)
        · refine .inr ⟨by simpa [countStarts] using hle, ?_⟩
          simp [applyOp, Lifecycle.close, hp]
    have htail := ih (applyOp lc op).1 hrest
    have hrun : runOps lc (op :: rest) =
        ((runOps (applyOp lc op).1 rest).1,
         (applyOp lc op).2 ++ (runOps (applyOp lc op).1 rest).2) := rfl
    rw [hrun]
    dsimp only
    rw [emittedStatuses_append]
    exact traceOK_append hstep htail

/-- Claim C5 counterexample: the claim quantifies over every reachable
sequence of public operations, but `start()` has no status guard
(`lifecycle.ts` lines 130-144) — invoking `start` a second time emits
`starting` after `running`, a backward transition, so the status history
of the operation sequence `[start, start]` is not forward-moving. -/
theorem status_moves_backward_on_double_start :
    ¬ ForwardMoving [Op.start, Op.start] := by
  intro hF
  have hF' : List.Chain' (fun a b => statusIdx a < statusIdx b)
      [Status.pending, .starting, .running, .starting, .running] := hF
  simp [List.chain'_cons, List.chain'_singleton, statusIdx] at hF'

/-- Claim C5, amended: provided `start()` is invoked at most once in the
operation sequence, every status transition along any reachable sequence
of public operations (`register`, `start`, `close`) moves strictly
forward in the order `pending, starting, running, closing, closed`, and
the status never returns to an earlier value (`closed` is terminal). -/
theorem status_forward_moving (ops : List Op) (h : countStarts ops ≤ 1) :
    ForwardMoving ops :=
  (runOps_traceOK ops (newLifecycle 600) (.inr ⟨h, rfl⟩)).1

/-- Witness for `status_forward_moving`: the status history of
register-start-close is forward-moving. -/
theorem status_forward_moving_wit :
    ForwardMoving [Op.register cA, Op.start, Op.close] :=
  status_forward_moving _ (by decide)

/-- Where the background health-loop task (the async IIFE spawned by
`start`, `lifecycle.ts` lines 136-142) is suspended: about to begin cycle
`k`'s interval delay; mid-pass with the listed components still to check
in cycle `k`; exited after observing a non-`running` status (having
resolved the completion signal); or dead after an unhandled rejection
from a recovery call. -/
inductive LoopState
| delaying (k : Nat)
| checking (k : Nat) (rest : List Component)
| exited
| dead

/-- Where a `close()` call (`lifecycle.ts` lines 149-167) is suspended:
not yet made; awaiting the health-loop completion signal; closing the
listed components (already reversed); halted by a component `close()`
rejection; or finished. -/
inductive CloseState
| notCalled
| awaitingSignal
| closingComps (rest : List Component)
| failed
| done

/-- Joint state of the running supervisor, its background health loop,
and one in-flight `close()` call, for reasoning about their cooperative
interleaving. -/
structure Sys where
  status : Status
  components : List Component
  intervalMs : Nat
  loopState : LoopState
  signalResolved : Bool
  closeState : CloseState
  trace : List Act

/-- The system just after `start()` returned: status `running`, the health
loop about to begin its first delay, the completion signal unresolved, no
close call yet. -/
def mkSys (cs : List Component) (i : Nat) : Sys :=
  { status := .running, components := cs, intervalMs := i,
    loopState := .delaying 0, signalResolved := false,
    closeState := .notCalled, trace := [] }

/-- One cooperative scheduling step.  Each constructor advances one task
between two of its suspension points, mirroring the awaits of the source:
the loop's delay, each component's check (with its possible recovery), the
end-of-cycle exit test `while (this.status === 'running')` with the
one-shot signal resolution (`lifecycle.ts` lines 137-142); and `close`'s
synchronous prefix through `setStatus('closing')`, its await of the
completion signal, each component close, and the final transition
(`lifecycle.ts` lines 149-166). -/
inductive Step : Sys → Sys → Prop
| loopDelay {s s' : Sys} (k : Nat) :
    s.loopState = .delaying k →
    s' = { s with loopState := .checking k s.components,
                  trace := s.trace ++ [.delayEv s.intervalMs] } →
    Step s s'
| loopCheck {s s' : Sys} (k : Nat) (c : Component) (rest : List Component) :
    s.loopState = .checking k (c :: rest) →
    (checkComponent c k).2 = true →
    s' = { s with loopState := .checking k rest,
                  trace := s.trace ++ (checkComponent c k).1 } →
    Step s s'
| loopCheckFail {s s' : Sys} (k : Nat) (c : Component) (rest : List Component) :
    s.loopState = .checking k (c :: rest) →
    (checkComponent c k).2 = false →
    s' = { s with loopState := .dead,
                  trace := s.trace ++ (checkComponent c k).1 } →
    Step s s'
| loopCycleEndRunning {s s' : Sys} (k : Nat) :
    s.loopState = .checking k [] →
    s.status = .running →
    s' = { s with loopState := .delaying (k + 1),
                  trace := s.trace ++ [.healthChecked] } →
    Step s s'
| loopCycleEndExit {s s' : Sys} (k : Nat) :
    s.loopState = .checking k [] →
    s.status ≠ .running →
    s' = { s with loopState := .exited, signalResolved := true,
                  trace := s.trace ++ [.healthChecked] } →
    Step s s'
| closeBegin {s s' : Sys} :
    s.closeState = .notCalled →
    s.status = .running →
    s' = { s with status := .closing, closeState := .awaitingSignal,
                  trace := s.trace ++ [.statusEv .closing] } →
    Step s s'
| closeObserveSignal {s s' : Sys} :
    s.closeState = .awaitingSignal →
    s.signalResolved = true →
    s' = { s with closeState := .closingComps s.components.reverse } →
    Step s s'
| closeComp {s s' : Sys} (c : Component) (rest : List Component) :
    s.closeState = .closingComps (c :: rest) →
    c.closeOk = true →
    s' = { s with closeState := .closingComps rest,
                  trace := s.trace ++ (closeComponent c).1 } →
    Step s s'
| closeCompFail {s s' : Sys} (c : Component) (rest : List Component) :
    s.closeState = .closingComps (c :: rest) →
    c.closeOk = false →
    s' = { s with closeState := .failed,
                  trace := s.trace ++ (closeComponent c).1 } →
    Step s s'
| closeFinish {s s' : Sys} :
    s.closeState = .closingComps [] →
    s' = { s with status := .closed, closeState := .done,
                  trace := s.trace ++ [.statusEv .closed] } →
    Step s s'

/-- Reachability under the cooperative step relation. -/
inductive Reach (s0 : Sys) : Sys → Prop
| refl : Reach s0 s0
| tail {a b : Sys} : Reach s0 a → Step a b → Reach s0 b

/-- Whether the health loop has stopped for good (exited normally or died
on an unhandled rejection). -/
def loopHalted : LoopState → Bool
| .exited => true
| .dead => true
| _ => false

/-- Whether the `close()` call has passed its await of the completion
signal (it is closing components, halted on a rejection, or finished). -/
def closingPhase : CloseState → Bool
| .closingComps _ => true
| .failed => true
| .done => true
| _ => false

/-- Actions belonging to a component `close()`: the `componentClosing`
event, the `close` invocation, the `componentClosed` event. -/
def isCompCloseAct : Act → Bool
| .componentClosing _ => true
| .callClose _ => true
| .componentClosed _ => true
| _ => false

/-- Actions issued by the health loop: the interval delay, health-check
invocations, restart events, recovery invocations, and the end-of-cycle
`healthChecked` event. -/
def isLoopAct : Act → Bool
| .delayEv _ => true
| .callCheckHealth _ => true
| .componentRestarting _ => true
| .componentRestarted _ => true
| .callStart _ => true
| .healthChecked => true
| _ => false

/-- Helper: no action of a component's health-check slice belongs to a
component close. -/
theorem checkComponent_no_close (c : Component) (k : Nat) :
    ∀ a ∈ (checkComponent c k).1, isCompCloseAct a = false := by
  cases hch : c.checkHealth with
  | none => simp [checkComponent, hch]
  | some f =>
    by_cases hf : f k <;> by_cases hok : c.startOk <;>
      simp [checkComponent, hch, hf, restartComponent, hok, isCompCloseAct]

/-- Helper: no action of a component's close slice belongs to the health
loop. -/
theorem closeComponent_no_loop (c : Component) :
    ∀ a ∈ (closeComponent c).1, isLoopAct a = false := by
  by_cases hok : c.closeOk <;> simp [closeComponent, hok, isLoopAct]

/-- The mutual-exclusion invariant of the health loop and shutdown: the
completion signal is resolved only once the loop has halted; a close call
reaches its component-closing phase only after the signal resolved and
the loop halted; and the trace splits into a prefix without component
close actions followed by a suffix without health-loop actions, the
suffix empty while the loop still runs. -/
def SysInv (s : Sys) : Prop :=
  (s.signalResolved = true → loopHalted s.loopState = true) ∧
  (closingPhase s.closeState = true → loopHalted s.loopState = true) ∧
  (closingPhase s.closeState = true → s.signalResolved = true) ∧
  (closingPhase s.closeState = false → ∀ a ∈ s.trace, isCompCloseAct a = false) ∧
  ∃ t1 t2, s.trace = t1 ++ t2 ∧
    (∀ a ∈ t1, isCompCloseAct a = false) ∧
    (∀ a ∈ t2, isLoopAct a = false) ∧
    (loopHalted s.loopState = false → t2 = [])

/-- Helper: invariant preservation for a step of the still-running health
loop (appending loop actions to the trace while the close call has not yet
reached components). -/
theorem sysInv_loopStep (s : Sys) (hInv : SysInv s)
    (hhalt : loopHalted s.loopState = false)
    (acts : List Act) (hacts : ∀ a ∈ acts, isCompCloseAct a = false)
    (ls' : LoopState) (sig' : Bool)
    (hsig' : sig' = true → loopHalted ls' = true) :
    SysInv { s with loopState := ls', signalResolved := sig',
                    trace := s.trace ++ acts } := by
  obtain ⟨h1, h2, h3, h4, t1, t2, htr, hn1, hn2, hempty⟩ := hInv
  have hphase : closingPhase s.closeState = false := by
    cases hcp : closingPhase s.closeState
    · rfl
    · exact absurd (h2 hcp) (by simp [hhalt])
  have ht2 : t2 = [] := hempty hhalt
  subst ht2
  have hstr : ∀ a ∈ s.trace, isCompCloseAct a = false := h4 hphase
  refine ⟨hsig', ?_, ?_, ?_,
    s.trace ++ acts, [], by simp, ?_, by simp, fun _ => rfl⟩
  · intro hcp
    rw [hphase] at hcp
    cases hcp
  · intro hcp
    rw [hphase] at hcp
    cases hcp
  · intro _ a ha
    rcases List.mem_append.mp ha with ha | ha
    · exact hstr a ha
    · exact hacts a ha
  · intro a ha
    rcases List.mem_append.mp ha with ha | ha
    · exact hstr a ha
    · exact hacts a ha

/-- Helper: every cooperative step preserves the mutual-exclusion
invariant. -/
theorem sysInv_step {s s' : Sys} (hInv : SysInv s) (hs : Step s s') :
    SysInv s' := by
  cases hs with
  | loopDelay k hl he =>
    subst he
    have hhalt : loopHalted s.loopState = false := by rw [hl]; rfl
    exact sysInv_loopStep s hInv hhalt _ (by simp [isCompCloseAct]) _ _
      fun hsg => absurd (hInv.1 hsg) (by simp [hhalt])
  | loopCheck k c rest hl hok he =>
    subst he
    have hhalt : loopHalted s.loopState = false := by rw [hl]; rfl
    exact sysInv_loopStep s hInv hhalt _ (checkComponent_no_close c k) _ _
      fun hsg => absurd (hInv.1 hsg) (by simp [hhalt])
  | loopCheckFail k c rest hl hok he =>
    subst he
    have hhalt : loopHalted s.loopState = false := by rw [hl]; rfl
    exact sysInv_loopStep s hInv hhalt _ (checkComponent_no_close c k) _ _
      fun _ => rfl
  | loopCycleEndRunning k hl hst he =>
    subst he
    have hhalt : loopHalted s.loopState = false := by rw [hl]; rfl
    exact sysInv_loopStep s hInv hhalt _ (by simp [isCompCloseAct]) _ _
      fun hsg => absurd (hInv.1 hsg) (by simp [hhalt])
  | loopCycleEndExit k hl hst he =>
    subst he
    have hhalt : loopHalted s.loopState = false := by rw [hl]; rfl
    exact sysInv_loopStep s hInv hhalt _ (by simp [isCompCloseAct]) _ _
      fun _ => rfl
  | closeBegin hcs hst he =>
    subst he
    obtain ⟨h1, h2, h3, h4, t1, t2, htr, hn1, hn2, hempty⟩ := hInv
    have hphase : closingPhase s.closeState = false := by rw [hcs]; rfl
    refine ⟨h1, ?_, ?_, ?_, ?_⟩
    · intro hcp
      simp [closingPhase] at hcp
    · intro hcp
      simp [closingPhase] at hcp
    · intro _ a ha
      rcases List.mem_append.mp ha with ha | ha
      · exact h4 hphase a ha
      · simp at ha
        subst ha
        rfl
    · cases hhalt : loopHalted s.loopState
      · have ht2 := hempty hhalt
        subst ht2
        refine ⟨t1 ++ [Act.statusEv .closing], [], by simp [htr], ?_, by simp,
          fun _ => rfl⟩
        intro a ha
        rcases List.mem_append.mp ha with ha | ha
        · exact hn1 a ha
        · simp at ha
          subst ha
          rfl
      · refine ⟨t1, t2 ++ [Act.statusEv .closing], by simp [htr], hn1, ?_, ?_⟩
        · intro a ha
          rcases List.mem_append.mp ha with ha | ha
          · exact hn2 a ha
          · simp at ha
            subst ha
            rfl
        · intro hf
          simp at hf
  | closeObserveSignal hcs hsig he =>
    subst he
    obtain ⟨h1, h2, h3, h4, t1, t2, htr, hn1, hn2, hempty⟩ := hInv
    refine ⟨h1, fun _ => h1 hsig, fun _ => hsig, ?_, t1, t2, htr, hn1, hn2, hempty⟩
    intro hcp
    simp [closingPhase] at hcp
  | closeComp c rest hcs hok he =>
    subst he
    obtain ⟨h1, h2, h3, h4, t1, t2, htr, hn1, hn2, hempty⟩ := hInv
    have hph : closingPhase s.closeState = true := by rw [hcs]; rfl
    refine ⟨h1, fun _ => h2 hph, fun _ => h3 hph, ?_,
      t1, t2 ++ (closeComponent c).1, by simp [htr], hn1, ?_, ?_⟩
    · intro hcp
      simp [closingPhase] at hcp
    · intro a ha
      rcases List.mem_append.mp ha with ha | ha
      · exact hn2 a ha
      · exact closeComponent_no_loop c a ha
    · intro hf
      rw [h2 hph] at hf
      cases hf
  | closeCompFail c rest hcs hok he =>
    subst he
    obtain ⟨h1, h2, h3, h4, t1, t2, htr, hn1, hn2, hempty⟩ := hInv
    have hph : closingPhase s.closeState = true := by rw [hcs]; rfl
    refine ⟨h1, fun _ => h2 hph, fun _ => h3 hph, ?_,
      t1, t2 ++ (closeComponent c).1, by simp [htr], hn1, ?_, ?_⟩
    · intro hcp
      simp [closingPhase] at hcp
    · intro a ha
      rcases List.mem_append.mp ha with ha | ha
      · exact hn2 a ha
      · exact closeComponent_no_loop c a ha
    · intro hf
      rw [h2 hph] at hf
      cases hf
  | closeFinish hcs he =>
    subst he
    obtain ⟨h1, h2, h3, h4, t1, t2, htr, hn1, hn2, hempty⟩ := hInv
    have hph : closingPhase s.closeState = true := by rw [hcs]; rfl
    refine ⟨h1, fun _ => h2 hph, fun _ => h3 hph, ?_,
      t1, t2 ++ [Act.statusEv .closed], by simp [htr], hn1, ?_, ?_⟩
    · intro hcp
      simp [closingPhase] at hcp
    · intro a ha
      rcases List.mem_append.mp ha with ha | ha
      · exact hn2 a ha
      · simp at ha
        subst ha
        rfl
    · intro hf
      rw [h2 hph] at hf
      cases hf

/-- Helper: the invariant holds in every state reachable from a freshly
started supervisor. -/
theorem sysInv_reach {cs : List Component} {i : Nat} {s : Sys}
    (h : Reach (mkSys cs i) s) : SysInv s := by
  induction h with
  | refl =>
    refine ⟨?_, ?_, ?_, ?_, [], [], rfl, by simp, by simp, fun _ => rfl⟩ <;>
      intro hc <;> simp [mkSys, closingPhase] at hc ⊢
  | tail hr hs ih => exact sysInv_step ih hs

/-- Claim C3: in every state reachable from a freshly started supervisor
under the cooperative interleaving of the health loop and a `close()`
call — `close()` transitions to `closing`, then awaits the one-shot
completion signal before touching any component; the loop evaluates its
exit condition once per cycle after the delay and the full check pass,
halts when the status is no longer `running`, and only then resolves the
signal — the completion signal is resolved only once the health loop has
halted, no component close action exists in the trace before the signal
resolves, and every health-loop action (`checkHealth` invocation, restart
event, recovery invocation, delay, `healthChecked`) occurs strictly
before every component close action: no check or restart ever begins
after any component's `close()` has begun. -/
theorem close_waits_for_health_loop (cs : List Component) (i : Nat) (s : Sys)
    (h : Reach (mkSys cs i) s) :
    (s.signalResolved = true → loopHalted s.loopState = true) ∧
    (s.signalResolved = false → ∀ a ∈ s.trace, isCompCloseAct a = false) ∧
    (∀ (p q : Nat) (hp : p < s.trace.length) (hq : q < s.trace.length),
      isCompCloseAct (s.trace.get ⟨p, hp⟩) = true →
      isLoopAct (s.trace.get ⟨q, hq⟩) = true → q < p) := by
  obtain ⟨h1, h2, h3, h4, t1, t2, htr, hn1, hn2, hempty⟩ := sysInv_reach h
  refine ⟨h1, ?_, ?_⟩
  · intro hsig a ha
    have hphase : closingPhase s.closeState = false := by
      cases hcp : closingPhase s.closeState
      · rfl
      · rw [h3 hcp] at hsig
        cases hsig
    exact h4 hphase a ha
  · rw [htr]
    intro p q hp hq hcp hlq
    have hple : t1.length ≤ p := by
      by_contra hlt
      push_neg at hlt
      have he : (t1 ++ t2).get ⟨p, hp⟩ = t1.get ⟨p, hlt⟩ := by
        simp [List.getElem_append_left hlt]
      rw [he] at hcp
      have hmem := hn1 (t1.get ⟨p, hlt⟩) (List.get_mem t1 p hlt)
      rw [hcp] at hmem
      cases hmem
    have hqlt : q < t1.length := by
      by_contra hge
      push_neg at hge
      have hq2 : q - t1.length < t2.length := by
        have hh := hq
        simp at hh
        omega
      have he : (t1 ++ t2).get ⟨q, hq⟩ = t2.get ⟨q - t1.length, hq2⟩ := by
        simp [List.getElem_append_right hge]
      rw [he] at hlq
      have hmem := hn2 (t2.get ⟨q - t1.length, hq2⟩) (List.get_mem t2 _ hq2)
      rw [hlq] at hmem
      cases hmem
    omega

/-- A concrete reachable final state of the witness interleaving: one
component, one health cycle interrupted by `close()`, then the full
shutdown. -/
def c3Wit : Sys :=
  { status := .closed, components := [cA], intervalMs := 5,
    loopState := .exited, signalResolved := true, closeState := .done,
    trace := [.delayEv 5, .statusEv .closing, .healthChecked,
      .componentClosing "a", .callClose "a", .componentClosed "a",
      .statusEv .closed] }

/-- Helper: the witness state is reachable: the loop delays and checks
`cA`, `close()` begins mid-cycle, the loop finishes the pass and exits
resolving the signal, and only then do the component close and the final
transition happen. -/
theorem c3Wit_reach : Reach (mkSys [cA] 5) c3Wit := by
  have r1 := Reach.tail (@Reach.refl (mkSys [cA] 5))
    (Step.loopDelay 0 rfl rfl)
  have r2 := Reach.tail r1 (Step.loopCheck 0 cA [] rfl rfl rfl)
  have r3 := Reach.tail r2 (Step.closeBegin rfl rfl rfl)
  have r4 := Reach.tail r3 (Step.loopCycleEndExit 0 rfl (by decide) rfl)
  have r5 := Reach.tail r4 (Step.closeObserveSignal rfl rfl rfl)
  have r6 := Reach.tail r5 (Step.closeComp cA [] rfl rfl rfl)
  exact Reach.tail r6 (Step.closeFinish rfl rfl)

/-- Witness for `close_waits_for_health_loop` at the concrete
interleaving `c3Wit_reach`: the signal is resolved and the loop halted,
and the loop's `healthChecked` at index 2 precedes the `componentClosing`
at index 3. -/
theorem close_waits_for_health_loop_wit :
    loopHalted c3Wit.loopState = true ∧ (2 : Nat) < 3 :=
  ⟨(close_waits_for_health_loop [cA] 5 c3Wit c3Wit_reach).1 rfl,
   (close_waits_for_health_loop [cA] 5 c3Wit c3Wit_reach).2.2 3 2
     (by decide) (by decide) (by decide) (by decide)⟩
